import Mathlib

/-!
Verification development for the VERIASSET repository.

The repository's Dutch-auction engine (Auction Price Model, Bid Ledger,
Settlement Resolver) is specified at design level in spec.md §3–§4; the
backend service implementing it is not part of the provided source tree
(the frontend only calls its REST endpoints), so those components are
modelled here from the spec's words.  The Qubic SDK utilities
(`placeBid`, `formatBalance`, `parseAmount`) are embedded from
`src/frontend/src/lib/qubic-sdk.ts`.

Prices and timestamps are modelled as rational numbers, supplies and
quantities as integers, and JavaScript bigints as naturals (the claims
concerned restrict to non-negative values).
-/

set_option linter.unusedVariables false

namespace VeriAssets

/-- Modelled from the spec: auction lifecycle status (§3 data model,
`Pending`, `Active`, `SoldOut`, `Ended`, `Cancelled`). -/
inductive AuctionStatus where
  | Pending
  | Active
  | SoldOut
  | Ended
  | Cancelled
deriving DecidableEq, Repr

/-- Modelled from the spec: the Auction record of §3.  The backend that
stores it is absent from the source tree; fields follow the spec's data
model (`startPrice`, `reservePrice`, `totalSupply`, `availableSupply`,
`startTime`, `endTime`, `status`). -/
structure Auction where
  startPrice : ℚ
  reservePrice : ℚ
  totalSupply : ℤ
  availableSupply : ℤ
  startTime : ℚ
  endTime : ℚ
  status : AuctionStatus
deriving DecidableEq, Repr

/-- Modelled from the spec: `clamp(v, lo, hi)` as used in §4.1's
`elapsedFraction = clamp((now - startTime) / (endTime - startTime), 0, 1)`. -/
def clamp (v lo hi : ℚ) : ℚ :=
  max lo (min v hi)

/-- Modelled from the spec: §4.1's elapsed fraction, with the edge case
"if `startTime == endTime`, treat as already-expired (`elapsedFraction = 1`)
rather than dividing by zero". -/
def elapsedFraction (a : Auction) (now : ℚ) : ℚ :=
  if a.startTime = a.endTime then 1
  else clamp ((now - a.startTime) / (a.endTime - a.startTime)) 0 1

/-- Modelled from the spec: §4.1's Auction Price Model, linear decay
`p = startPrice - elapsedFraction * (startPrice - reservePrice)`.  The
backend implementing this price model is absent from the source tree. -/
def currentPrice (a : Auction) (now : ℚ) : ℚ :=
  a.startPrice - elapsedFraction a now * (a.startPrice - a.reservePrice)

theorem clamp_le_hi (v lo hi : ℚ) (h : lo ≤ hi) : clamp v lo hi ≤ hi := by
  simp only [clamp, max_le_iff]
  exact ⟨h, min_le_right v hi⟩

theorem lo_le_clamp (v lo hi : ℚ) : lo ≤ clamp v lo hi :=
  le_max_left lo (min v hi)

theorem elapsedFraction_nonneg (a : Auction) (now : ℚ) :
    0 ≤ elapsedFraction a now := by
  unfold elapsedFraction
  split
  · norm_num
  · exact lo_le_clamp _ 0 1

theorem elapsedFraction_le_one (a : Auction) (now : ℚ) :
    elapsedFraction a now ≤ 1 := by
  unfold elapsedFraction
  split
  · norm_num
  · exact clamp_le_hi _ 0 1 (by norm_num)

theorem elapsedFraction_mono (a : Auction) (t1 t2 : ℚ)
    (h1 : a.startTime ≤ t1) (h12 : t1 ≤ t2) (h2 : t2 ≤ a.endTime) :
    elapsedFraction a t1 ≤ elapsedFraction a t2 := by
  unfold elapsedFraction
  split
  · exact le_refl 1
  · have hne : a.startTime ≠ a.endTime := by assumption
    have hlt : a.startTime < a.endTime :=
      lt_of_le_of_ne (le_trans h1 (le_trans h12 h2)) hne
    have hden : (0:ℚ) < a.endTime - a.startTime := by linarith
    have hdiv : (t1 - a.startTime) / (a.endTime - a.startTime) ≤
        (t2 - a.startTime) / (a.endTime - a.startTime) := by
      gcongr
    exact max_le_max (le_refl 0) (min_le_min hdiv (le_refl 1))

/-- C1: with `reservePrice < startPrice` and `startTime < endTime`, the
current price equals
`startPrice - clamp((now - startTime) / (endTime - startTime), 0, 1) * (startPrice - reservePrice)`. -/
theorem currentPrice_linear_decay (a : Auction) (now : ℚ)
    (_hr : a.reservePrice < a.startPrice) (ht : a.startTime < a.endTime) :
    currentPrice a now =
      a.startPrice -
        clamp ((now - a.startTime) / (a.endTime - a.startTime)) 0 1 *
          (a.startPrice - a.reservePrice) := by
  unfold currentPrice elapsedFraction
  rw [if_neg (ne_of_lt ht)]

/-- Witness for C1: the spec's concrete auction (`startPrice = 150`,
`reservePrice = 75`, `startTime = 0`, `endTime = 1000`) at `now = 500`
prices at `112.5`. -/
theorem currentPrice_linear_decay_witness :
    (75 : ℚ) < 150 ∧ (0 : ℚ) < 1000 ∧
      currentPrice ⟨150, 75, 100, 100, 0, 1000, .Active⟩ 500 =
        150 - clamp ((500 - 0) / (1000 - 0)) 0 1 * (150 - 75) := by
  refine ⟨by norm_num, by norm_num, ?_⟩
  exact currentPrice_linear_decay ⟨150, 75, 100, 100, 0, 1000, .Active⟩ 500
    (by norm_num) (by norm_num)

/-- C4: under the spec's data-model invariant `reservePrice < startPrice`,
the price is monotonically non-increasing: for `t1 < t2` within
`[startTime, endTime]`, `price(t1) >= price(t2)`. -/
theorem currentPrice_antitone (a : Auction) (t1 t2 : ℚ)
    (hr : a.reservePrice < a.startPrice)
    (h1 : a.startTime ≤ t1) (h12 : t1 < t2) (h2 : t2 ≤ a.endTime) :
    currentPrice a t2 ≤ currentPrice a t1 := by
  unfold currentPrice
  have hf := elapsedFraction_mono a t1 t2 h1 (le_of_lt h12) h2
  have hsp : (0:ℚ) ≤ a.startPrice - a.reservePrice := by linarith
  nlinarith [mul_le_mul_of_nonneg_right hf hsp]

/-- Witness for C4: the spec's concrete auction at `t1 = 200`, `t2 = 700`. -/
theorem currentPrice_antitone_witness :
    (75 : ℚ) < 150 ∧ (0 : ℚ) ≤ 200 ∧ (200 : ℚ) < 700 ∧ (700 : ℚ) ≤ 1000 ∧
      currentPrice ⟨150, 75, 100, 100, 0, 1000, .Active⟩ 700 ≤
        currentPrice ⟨150, 75, 100, 100, 0, 1000, .Active⟩ 200 := by
  refine ⟨by norm_num, by norm_num, by norm_num, by norm_num, ?_⟩
  exact currentPrice_antitone ⟨150, 75, 100, 100, 0, 1000, .Active⟩ 200 700
    (by norm_num) (by norm_num) (by norm_num) (by norm_num)

/-- C5: under the spec's data-model invariant `reservePrice < startPrice`,
the price is bounded: `reservePrice <= price(auction, t) <= startPrice`
for every `t`. -/
theorem currentPrice_bounded (a : Auction) (t : ℚ)
    (hr : a.reservePrice < a.startPrice) :
    a.reservePrice ≤ currentPrice a t ∧ currentPrice a t ≤ a.startPrice := by
  unfold currentPrice
  have h0 := elapsedFraction_nonneg a t
  have h1 := elapsedFraction_le_one a t
  have hsp : (0:ℚ) ≤ a.startPrice - a.reservePrice := by linarith
  constructor
  · nlinarith [mul_le_mul_of_nonneg_right h1 hsp]
  · nlinarith [mul_nonneg h0 hsp]

/-- Witness for C5: the spec's concrete auction at `t = 250`. -/
theorem currentPrice_bounded_witness :
    (75 : ℚ) < 150 ∧
      ((75 : ℚ) ≤ currentPrice ⟨150, 75, 100, 100, 0, 1000, .Active⟩ 250 ∧
        currentPrice ⟨150, 75, 100, 100, 0, 1000, .Active⟩ 250 ≤ 150) :=
  ⟨by norm_num,
    currentPrice_bounded ⟨150, 75, 100, 100, 0, 1000, .Active⟩ 250 (by norm_num)⟩

/-- C8: a degenerate auction with `startTime = endTime` prices at
`reservePrice` for every `now`; the guard sets `elapsedFraction = 1` so
the division is never taken. -/
theorem currentPrice_degenerate (a : Auction) (now : ℚ)
    (h : a.startTime = a.endTime) :
    currentPrice a now = a.reservePrice ∧ elapsedFraction a now = 1 := by
  unfold currentPrice elapsedFraction
  rw [if_pos h]
  constructor
  · ring
  · rfl

/-- Witness for C8: a degenerate auction with `startTime = endTime = 40`. -/
theorem currentPrice_degenerate_witness :
    (40 : ℚ) = 40 ∧
      (currentPrice ⟨150, 75, 100, 100, 40, 40, .Active⟩ 7 = 75 ∧
        elapsedFraction ⟨150, 75, 100, 100, 40, 40, .Active⟩ 7 = 1) :=
  ⟨rfl, currentPrice_degenerate ⟨150, 75, 100, 100, 40, 40, .Active⟩ 7 rfl⟩

/-- Modelled from the spec: §7's closed error kinds used by the Bid
Ledger's `submitBid`. -/
inductive BidError where
  | InvalidState
  | InvalidQuantity
  | PriceTooLow
deriving DecidableEq, Repr

/-- Modelled from the spec: §3's Bid record (bidder identity, positive
quantity, `maxPrice`, `submittedAt`). -/
structure Bid where
  bidder : String
  quantity : ℤ
  maxPrice : ℚ
  submittedAt : ℚ
deriving DecidableEq, Repr

/-- Modelled from the spec: the arguments of §4.2's
`submitBid(auction, bidder, quantity, maxPrice, now)`. -/
structure BidRequest where
  bidder : String
  quantity : ℤ
  maxPrice : ℚ
  now : ℚ
deriving DecidableEq, Repr

/-- Modelled from the spec: the Bid Ledger's state — an auction together
with its recorded accepted bids (§3: an Auction owns zero-or-more Bids). -/
structure LedgerState where
  auction : Auction
  bids : List Bid
deriving DecidableEq, Repr

/-- Modelled from the spec: §4.2's `submitBid`, with the checks in the
contract's order (`InvalidState`, then `InvalidQuantity`, then
`PriceTooLow`); on success it decrements `availableSupply`, appends an
accepted bid record, and transitions to `SoldOut` when the supply reaches
0.  The backend implementing the Bid Ledger is absent from the source
tree. -/
def submitBid (st : LedgerState) (r : BidRequest) : Except BidError LedgerState :=
  if st.auction.status ≠ AuctionStatus.Active then .error .InvalidState
  else if r.quantity ≤ 0 ∨ st.auction.availableSupply < r.quantity then
    .error .InvalidQuantity
  else if r.maxPrice < currentPrice st.auction r.now then .error .PriceTooLow
  else
    let newSupply := st.auction.availableSupply - r.quantity
    .ok { auction := { st.auction with
            availableSupply := newSupply,
            status := if newSupply = 0 then .SoldOut else st.auction.status },
          bids := st.bids ++ [{ bidder := r.bidder, quantity := r.quantity,
                                maxPrice := r.maxPrice, submittedAt := r.now }] }

/-- Modelled from the spec: a sequence of bid submissions; a rejected bid
leaves the state unchanged (§7: the core never produces partial state on
failure). -/
def applyBids (st : LedgerState) : List BidRequest → LedgerState
  | [] => st
  | r :: rs =>
    match submitBid st r with
    | .ok st2 => applyBids st2 rs
    | .error _ => applyBids st rs

/-- Total quantity of the recorded accepted bids. -/
def sumQuantities (bids : List Bid) : ℤ :=
  (bids.map Bid.quantity).sum

/-- Modelled from the spec: §8's capacity invariant
`availableSupply = totalSupply - sum(accepted bid quantities)` with
`availableSupply >= 0`. -/
def capacityInv (st : LedgerState) : Prop :=
  st.auction.availableSupply =
      st.auction.totalSupply - sumQuantities st.bids ∧
    0 ≤ st.auction.availableSupply

theorem submitBid_ok (st : LedgerState) (r : BidRequest) (st' : LedgerState)
    (h : submitBid st r = .ok st') :
    st.auction.status = .Active ∧
      0 < r.quantity ∧ r.quantity ≤ st.auction.availableSupply ∧
      st'.auction.availableSupply = st.auction.availableSupply - r.quantity ∧
      st'.auction.totalSupply = st.auction.totalSupply ∧
      st'.bids = st.bids ++
        [{ bidder := r.bidder, quantity := r.quantity,
           maxPrice := r.maxPrice, submittedAt := r.now }] ∧
      (st'.auction.status = .SoldOut ↔ st'.auction.availableSupply = 0) := by
  unfold submitBid at h
  split at h
  · exact absurd h (by simp)
  next hstate =>
    split at h
    · exact absurd h (by simp)
    next hqty =>
      split at h
      · exact absurd h (by simp)
      next hprice =>
        push_neg at hstate hqty
        obtain ⟨hq0, hqle⟩ := hqty
        cases h
        refine ⟨hstate, hq0, hqle, rfl, rfl, rfl, ?_⟩
        by_cases hz : st.auction.availableSupply - r.quantity = 0
        · simp [hz]
        · simp [hz, hstate]

theorem capacityInv_applyBids (st : LedgerState) (hinv : capacityInv st)
    (reqs : List BidRequest) : capacityInv (applyBids st reqs) := by
  induction reqs generalizing st with
  | nil => exact hinv
  | cons r rs ih =>
    unfold applyBids
    cases hcall : submitBid st r with
    | error e => exact ih st hinv
    | ok st2 =>
      apply ih
      obtain ⟨-, hq0, hqle, havail, htot, hbids, -⟩ :=
        submitBid_ok st r st2 hcall
      obtain ⟨heq, hnn⟩ := hinv
      constructor
      · rw [havail, htot, hbids, heq]
        simp [sumQuantities]
        ring
      · rw [havail]
        omega

/-- C2: starting from a fresh auction, after any sequence of bid
submissions the accepted bids satisfy
`availableSupply = totalSupply - sum(accepted bid quantities)` and
`availableSupply >= 0`; moreover every successful `submitBid` decrements
`availableSupply` by the bid's quantity, appends the bid record, and the
resulting status is `SoldOut` exactly when `availableSupply` reaches 0. -/
theorem capacity_invariant (a : Auction) (reqs : List BidRequest)
    (hfresh : a.availableSupply = a.totalSupply) (hpos : 0 ≤ a.totalSupply)
    (st : LedgerState) (r : BidRequest) (st' : LedgerState)
    (hstep : submitBid st r = .ok st') :
    ((applyBids ⟨a, []⟩ reqs).auction.availableSupply =
        (applyBids ⟨a, []⟩ reqs).auction.totalSupply -
          sumQuantities (applyBids ⟨a, []⟩ reqs).bids ∧
      0 ≤ (applyBids ⟨a, []⟩ reqs).auction.availableSupply) ∧
      st'.auction.availableSupply = st.auction.availableSupply - r.quantity ∧
      st'.bids = st.bids ++
        [{ bidder := r.bidder, quantity := r.quantity,
           maxPrice := r.maxPrice, submittedAt := r.now }] ∧
      (st'.auction.status = .SoldOut ↔ st'.auction.availableSupply = 0) := by
  obtain ⟨-, -, -, havail, -, hbids, hsold⟩ := submitBid_ok st r st' hstep
  refine ⟨?_, havail, hbids, hsold⟩
  exact capacityInv_applyBids ⟨a, []⟩
    ⟨by simpa [sumQuantities] using hfresh, by rw [hfresh]; exact hpos⟩ reqs

/-- C3: on an `Active` auction with a valid quantity, `submitBid` fails
with `PriceTooLow` exactly when `maxPrice < currentPrice(auction, now)`. -/
theorem submitBid_priceTooLow_iff (st : LedgerState) (r : BidRequest)
    (hact : st.auction.status = .Active)
    (hq : 0 < r.quantity ∧ r.quantity ≤ st.auction.availableSupply) :
    submitBid st r = .error .PriceTooLow ↔
      r.maxPrice < currentPrice st.auction r.now := by
  unfold submitBid
  rw [if_neg (by simp [hact]), if_neg (by push_neg; exact hq)]
  split
  next hp => simpa using hp
  next hp => simpa using hp

/-- C6 (amended): on an `Active` auction, `submitBid` fails with
`InvalidQuantity` if `quantity <= 0` or `quantity > availableSupply`. -/
theorem submitBid_invalidQuantity (st : LedgerState) (r : BidRequest)
    (hact : st.auction.status = .Active)
    (hq : r.quantity ≤ 0 ∨ st.auction.availableSupply < r.quantity) :
    submitBid st r = .error .InvalidQuantity := by
  unfold submitBid
  rw [if_neg (by simp [hact]), if_pos hq]

/-- Counterexample for C6 as stated: on a `Pending` auction a bid with
`quantity = 0` fails with `InvalidState`, not `InvalidQuantity` (the
`InvalidState` check of §4.2 runs first). -/
theorem submitBid_invalidQuantity_cex :
    ((0 : ℤ) ≤ 0 ∨
        (({ auction := ⟨150, 75, 100, 100, 0, 1000, .Pending⟩,
            bids := [] } : LedgerState)).auction.availableSupply < 0) ∧
      submitBid { auction := ⟨150, 75, 100, 100, 0, 1000, .Pending⟩, bids := [] }
          { bidder := "mallory", quantity := 0, maxPrice := 150, now := 0 } =
        .error .InvalidState ∧
      submitBid { auction := ⟨150, 75, 100, 100, 0, 1000, .Pending⟩, bids := [] }
          { bidder := "mallory", quantity := 0, maxPrice := 150, now := 0 } ≠
        .error .InvalidQuantity := by
  refine ⟨Or.inl (le_refl 0), ?_, ?_⟩ <;> simp [submitBid]

/-- Witness for C2: the spec's concrete auction with an accepted bid of 30
and a rejected oversize bid in the trace, and a successful bid of the full
supply as the step, which sells the auction out. -/
theorem capacity_invariant_witness :
    (100 : ℤ) = 100 ∧ (0 : ℤ) ≤ 100 ∧
      submitBid { auction := ⟨150, 75, 100, 100, 0, 1000, .Active⟩, bids := [] }
          { bidder := "carol", quantity := 100, maxPrice := 150, now := 0 } =
        .ok { auction := ⟨150, 75, 100, 0, 0, 1000, .SoldOut⟩,
              bids := [{ bidder := "carol", quantity := 100, maxPrice := 150,
                         submittedAt := 0 }] } ∧
      (((applyBids ⟨⟨150, 75, 100, 100, 0, 1000, .Active⟩, []⟩
            [{ bidder := "alice", quantity := 30, maxPrice := 150, now := 0 },
             { bidder := "bob", quantity := 200, maxPrice := 150, now := 0 }]).auction.availableSupply =
          (applyBids ⟨⟨150, 75, 100, 100, 0, 1000, .Active⟩, []⟩
            [{ bidder := "alice", quantity := 30, maxPrice := 150, now := 0 },
             { bidder := "bob", quantity := 200, maxPrice := 150, now := 0 }]).auction.totalSupply -
            sumQuantities (applyBids ⟨⟨150, 75, 100, 100, 0, 1000, .Active⟩, []⟩
              [{ bidder := "alice", quantity := 30, maxPrice := 150, now := 0 },
               { bidder := "bob", quantity := 200, maxPrice := 150, now := 0 }]).bids ∧
          0 ≤ (applyBids ⟨⟨150, 75, 100, 100, 0, 1000, .Active⟩, []⟩
            [{ bidder := "alice", quantity := 30, maxPrice := 150, now := 0 },
             { bidder := "bob", quantity := 200, maxPrice := 150, now := 0 }]).auction.availableSupply) ∧
        ({ auction := ⟨150, 75, 100, 0, 0, 1000, .SoldOut⟩,
           bids := [{ bidder := "carol", quantity := 100, maxPrice := 150,
                      submittedAt := 0 }] } : LedgerState).auction.availableSupply =
          ({ auction := ⟨150, 75, 100, 100, 0, 1000, .Active⟩,
             bids := [] } : LedgerState).auction.availableSupply - 100 ∧
        ({ auction := ⟨150, 75, 100, 0, 0, 1000, .SoldOut⟩,
           bids := [{ bidder := "carol", quantity := 100, maxPrice := 150,
                      submittedAt := 0 }] } : LedgerState).bids =
          ({ auction := ⟨150, 75, 100, 100, 0, 1000, .Active⟩,
             bids := [] } : LedgerState).bids ++
            [{ bidder := "carol", quantity := 100, maxPrice := 150,
               submittedAt := 0 }] ∧
        (({ auction := ⟨150, 75, 100, 0, 0, 1000, .SoldOut⟩,
            bids := [{ bidder := "carol", quantity := 100, maxPrice := 150,
                       submittedAt := 0 }] } : LedgerState).auction.status = .SoldOut ↔
          ({ auction := ⟨150, 75, 100, 0, 0, 1000, .SoldOut⟩,
             bids := [{ bidder := "carol", quantity := 100, maxPrice := 150,
                        submittedAt := 0 }] } : LedgerState).auction.availableSupply = 0)) :=
  ⟨rfl, by norm_num, by norm_num [submitBid, currentPrice, elapsedFraction, clamp],
    capacity_invariant ⟨150, 75, 100, 100, 0, 1000, .Active⟩
      [{ bidder := "alice", quantity := 30, maxPrice := 150, now := 0 },
       { bidder := "bob", quantity := 200, maxPrice := 150, now := 0 }]
      rfl (by norm_num)
      { auction := ⟨150, 75, 100, 100, 0, 1000, .Active⟩, bids := [] }
      { bidder := "carol", quantity := 100, maxPrice := 150, now := 0 }
      { auction := ⟨150, 75, 100, 0, 0, 1000, .SoldOut⟩,
        bids := [{ bidder := "carol", quantity := 100, maxPrice := 150,
                   submittedAt := 0 }] }
      (by norm_num [submitBid, currentPrice, elapsedFraction, clamp])⟩

/-- Witness for C3: the spec's concrete scenario — at `t = 0` on the
auction with `startPrice = 150`, a bid with `maxPrice = 100` fails with
`PriceTooLow`. -/
theorem submitBid_priceTooLow_iff_witness :
    ({ auction := ⟨150, 75, 100, 100, 0, 1000, .Active⟩,
       bids := [] } : LedgerState).auction.status = .Active ∧
      ((0 : ℤ) < 1 ∧ (1 : ℤ) ≤
        ({ auction := ⟨150, 75, 100, 100, 0, 1000, .Active⟩,
           bids := [] } : LedgerState).auction.availableSupply) ∧
      submitBid { auction := ⟨150, 75, 100, 100, 0, 1000, .Active⟩, bids := [] }
          { bidder := "dave", quantity := 1, maxPrice := 100, now := 0 } =
        .error .PriceTooLow :=
  ⟨rfl, ⟨by norm_num, by norm_num⟩,
    (submitBid_priceTooLow_iff
        { auction := ⟨150, 75, 100, 100, 0, 1000, .Active⟩, bids := [] }
        { bidder := "dave", quantity := 1, maxPrice := 100, now := 0 }
        rfl ⟨by norm_num, by norm_num⟩).mpr
      (by norm_num [currentPrice, elapsedFraction, clamp])⟩

/-- Witness for C6 (amended): on an `Active` auction a bid with
`quantity = 0` fails with `InvalidQuantity`. -/
theorem submitBid_invalidQuantity_witness :
    ({ auction := ⟨150, 75, 100, 100, 0, 1000, .Active⟩,
       bids := [] } : LedgerState).auction.status = .Active ∧
      ((0 : ℤ) ≤ 0 ∨
        ({ auction := ⟨150, 75, 100, 100, 0, 1000, .Active⟩,
           bids := [] } : LedgerState).auction.availableSupply < 0) ∧
      submitBid { auction := ⟨150, 75, 100, 100, 0, 1000, .Active⟩, bids := [] }
          { bidder := "erin", quantity := 0, maxPrice := 150, now := 0 } =
        .error .InvalidQuantity :=
  ⟨rfl, Or.inl (le_refl 0),
    submitBid_invalidQuantity
      { auction := ⟨150, 75, 100, 100, 0, 1000, .Active⟩, bids := [] }
      { bidder := "erin", quantity := 0, maxPrice := 150, now := 0 }
      rfl (Or.inl (le_refl 0))⟩

/-- Modelled from the spec: §4.1 "Pure function: no side effects" — the
price model evaluated against the ledger state returns the state
unchanged. -/
def readCurrentPrice (st : LedgerState) (now : ℚ) : ℚ × LedgerState :=
  (currentPrice st.auction now, st)

/-- C7: the price model is pure — the price depends only on the
`(startPrice, reservePrice, startTime, endTime, now)` inputs (two
auctions agreeing on them price identically), and evaluating it leaves
the ledger state unchanged, so re-evaluation yields the same price. -/
theorem currentPrice_pure (a b : Auction) (now : ℚ) (st : LedgerState)
    (hsp : a.startPrice = b.startPrice) (hrp : a.reservePrice = b.reservePrice)
    (hst : a.startTime = b.startTime) (het : a.endTime = b.endTime) :
    currentPrice a now = currentPrice b now ∧
      (readCurrentPrice st now).2 = st ∧
      (readCurrentPrice (readCurrentPrice st now).2 now).1 =
        (readCurrentPrice st now).1 := by
  refine ⟨?_, rfl, rfl⟩
  unfold currentPrice elapsedFraction
  rw [hsp, hrp, hst, het]

/-- Witness for C7: two auctions agreeing on the price parameters but
differing in supply and status price identically, and evaluation leaves a
concrete ledger state unchanged. -/
theorem currentPrice_pure_witness :
    (150 : ℚ) = 150 ∧ (75 : ℚ) = 75 ∧ (0 : ℚ) = 0 ∧ (1000 : ℚ) = 1000 ∧
      (currentPrice ⟨150, 75, 100, 100, 0, 1000, .Active⟩ 123 =
          currentPrice ⟨150, 75, 33, 3, 0, 1000, .SoldOut⟩ 123 ∧
        (readCurrentPrice ⟨⟨150, 75, 100, 100, 0, 1000, .Active⟩, []⟩ 123).2 =
          ⟨⟨150, 75, 100, 100, 0, 1000, .Active⟩, []⟩ ∧
        (readCurrentPrice
            (readCurrentPrice ⟨⟨150, 75, 100, 100, 0, 1000, .Active⟩, []⟩ 123).2
            123).1 =
          (readCurrentPrice ⟨⟨150, 75, 100, 100, 0, 1000, .Active⟩, []⟩ 123).1) :=
  ⟨rfl, rfl, rfl, rfl,
    currentPrice_pure ⟨150, 75, 100, 100, 0, 1000, .Active⟩
      ⟨150, 75, 33, 3, 0, 1000, .SoldOut⟩ 123
      ⟨⟨150, 75, 100, 100, 0, 1000, .Active⟩, []⟩ rfl rfl rfl rfl⟩

end VeriAssets

namespace QubicSDK

/-- Transaction status from `src/frontend/src/lib/qubic-sdk.ts`
(`'pending' | 'confirmed' | 'failed'`). -/
inductive TxStatus where
  | pending
  | confirmed
  | failed
deriving DecidableEq, Repr

/-- The `QubicWallet` record of `qubic-sdk.ts`. -/
structure QubicWallet where
  address : String
  publicKey : String
  balance : ℤ
  connected : Bool
deriving DecidableEq, Repr

/-- The `QubicTransaction` record of `qubic-sdk.ts`.  The source's `from`
and `to` fields are named `fromAddr` and `toAddr` (`from` is reserved in
Lean); `timestamp` abstracts the `Date` value as a number. -/
structure QubicTransaction where
  hash : String
  fromAddr : String
  toAddr : String
  amount : ℤ
  tick : ℕ
  status : TxStatus
  timestamp : ℕ
deriving DecidableEq, Repr

/-- Embeds `QubicSDK.sendTransaction` from `qubic-sdk.ts`: requires a
connected wallet and returns a pending transaction.  The effectful inputs
— the generated hash (`generateTxHash`), the fetched tick
(`getCurrentTick`) and the construction time (`new Date()`) — are passed
explicitly; the demo `setTimeout` that later flips the status to
confirmed does not affect the returned value. -/
def sendTransaction (wallet : Option QubicWallet) (txHash : String)
    (tick : ℕ) (timestamp : ℕ) (toAddr : String) (amount : ℤ) :
    Except String QubicTransaction :=
  match wallet with
  | none => .error "Wallet not connected"
  | some w =>
    .ok { hash := txHash, fromAddr := w.address, toAddr := toAddr,
          amount := amount, tick := tick, status := .pending,
          timestamp := timestamp }

/-- Embeds `QubicSDK.placeBid` from `qubic-sdk.ts`: with a connected
wallet it sends `maxPrice * amount` to the Dutch-auction contract address
and then issues the `placeBid` contract call (a fire-and-forget REST call
that does not affect the returned transaction). -/
def placeBid (wallet : Option QubicWallet) (txHash : String) (tick : ℕ)
    (timestamp : ℕ) (auctionId : String) (amount : ℤ) (maxPrice : ℤ) :
    Except String QubicTransaction :=
  match wallet with
  | none => .error "Wallet not connected"
  | some _ =>
    sendTransaction wallet txHash tick timestamp
      "DUTCH_AUCTION_CONTRACT_ADDRESS" (maxPrice * amount)

/-- C9: with a connected wallet, `placeBid(auctionId, amount, maxPrice)`
sends to the auction contract a transaction transferring exactly
`maxPrice * amount` — the stated maximum price times quantity, not the
live auction price. -/
theorem placeBid_transfers_maxPrice_mul_amount (w : QubicWallet)
    (txHash : String) (tick timestamp : ℕ) (auctionId : String)
    (amount maxPrice : ℤ) :
    placeBid (some w) txHash tick timestamp auctionId amount maxPrice =
      .ok { hash := txHash, fromAddr := w.address,
            toAddr := "DUTCH_AUCTION_CONTRACT_ADDRESS",
            amount := maxPrice * amount, tick := tick, status := .pending,
            timestamp := timestamp } :=
  rfl

/-!
String utilities of `qubic-sdk.ts`.  JavaScript strings are modelled as
`List Char`; non-negative bigints as `ℕ`.  `toLocaleString()` is the
default en-US rendering: decimal digits with comma thousands separators.
-/

/-- Decimal digit to its ASCII character, as in `toString`. -/
def digitToChar (d : ℕ) : Char :=
  Char.ofNat (48 + d)

/-- ASCII digit character back to its value, as in `BigInt(...)`. -/
def charToDigit (c : Char) : ℕ :=
  c.toNat - 48

/-- Embeds JavaScript `toString()` on a non-negative bigint: its decimal
digits, most significant first. -/
def natToChars (n : ℕ) : List Char :=
  if n = 0 then ['0'] else ((Nat.digits 10 n).map digitToChar).reverse

/-- Grouping step of `toLocaleString()` on the reversed digit list: a
comma after every three digits counted from the right. -/
def groupAux : List Char → List Char
  | a :: b :: c :: d :: rest => a :: b :: c :: ',' :: groupAux (d :: rest)
  | l => l

/-- Embeds `toLocaleString()` on a non-negative bigint in the default
en-US locale. -/
def toLocaleChars (n : ℕ) : List Char :=
  (groupAux (natToChars n).reverse).reverse

/-- Embeds `String.prototype.padStart(n, fill)`. -/
def padStart (cs : List Char) (n : ℕ) (fill : Char) : List Char :=
  List.replicate (n - cs.length) fill ++ cs

/-- Embeds `String.prototype.padEnd(n, fill)`. -/
def padEnd (cs : List Char) (n : ℕ) (fill : Char) : List Char :=
  cs ++ List.replicate (n - cs.length) fill

/-- Embeds `QubicSDK.formatBalance` from `qubic-sdk.ts`: with
`decimals = 0` the grouped digits of `amount`; otherwise the grouped
whole part, a dot, and the fractional part left-padded with zeros.
`BigInt(10 ** decimals)` is exact for every `decimals` the round-trip
claim quantifies over, so the divisor is `10 ^ decimals`. -/
def formatBalance (amount : ℕ) (decimals : ℕ) : List Char :=
  if decimals = 0 then toLocaleChars amount
  else
    let divisor := 10 ^ decimals
    let whole := amount / divisor
    let fraction := amount % divisor
    toLocaleChars whole ++ '.' :: padStart (natToChars fraction) decimals '0'

/-- Embeds `replace(/,/g, '')`. -/
def stripCommas (cs : List Char) : List Char :=
  cs.filter (fun c => c ≠ ',')

/-- Embeds `BigInt(string)` on comma-free decimal digit strings. -/
def parseBigInt (cs : List Char) : ℕ :=
  cs.foldl (fun acc c => 10 * acc + charToDigit c) 0

/-- Embeds `QubicSDK.parseAmount` from `qubic-sdk.ts`: with
`decimals = 0` the comma-stripped digits are parsed directly; otherwise
`split('.')[0]` (the prefix before the first dot, commas stripped) is the
whole part and `split('.')[1]` (the segment between the first and second
dots, right-padded with zeros) the fractional part. -/
def parseAmount (cs : List Char) (decimals : ℕ) : ℕ :=
  if decimals = 0 then parseBigInt (stripCommas cs)
  else
    let part0 := cs.takeWhile (fun c => c ≠ '.')
    let whole := parseBigInt (stripCommas part0)
    let fraction :=
      match cs.dropWhile (fun c => c ≠ '.') with
      | [] => 0
      | _ :: r =>
        parseBigInt (padEnd (r.takeWhile (fun c => c ≠ '.')) decimals '0')
    whole * 10 ^ decimals + fraction

theorem charToDigit_digitToChar : ∀ d < 10, charToDigit (digitToChar d) = d := by
  decide

theorem digitToChar_ne : ∀ d < 10, digitToChar d ≠ ',' ∧ digitToChar d ≠ '.' := by
  decide

theorem mem_natToChars (n : ℕ) (c : Char) (hc : c ∈ natToChars n) :
    ∃ d, d < 10 ∧ c = digitToChar d := by
  unfold natToChars at hc
  split at hc
  · refine ⟨0, by norm_num, ?_⟩
    simpa using hc
  next hn =>
    rw [List.mem_reverse, List.mem_map] at hc
    obtain ⟨d, hd, rfl⟩ := hc
    exact ⟨d, Nat.digits_lt_base (by norm_num) hd, rfl⟩

theorem natToChars_no_comma_dot (n : ℕ) (c : Char) (hc : c ∈ natToChars n) :
    c ≠ ',' ∧ c ≠ '.' := by
  obtain ⟨d, hd, rfl⟩ := mem_natToChars n c hc
  exact digitToChar_ne d hd

theorem stripCommas_groupAux (l : List Char) :
    stripCommas (groupAux l) = stripCommas l := by
  match l with
  | [] => rfl
  | [a] => rfl
  | [a, b] => rfl
  | [a, b, c] => rfl
  | a :: b :: c :: d :: rest =>
    have ih := stripCommas_groupAux (d :: rest)
    simp only [groupAux, stripCommas, List.filter_cons] at ih ⊢
    simp only [ih]
    norm_num

theorem stripCommas_reverse (l : List Char) :
    stripCommas l.reverse = (stripCommas l).reverse := by
  induction l with
  | nil => rfl
  | cons x xs ih =>
    simp only [stripCommas, List.reverse_cons, List.filter_append,
      List.filter_cons, List.filter_nil] at ih ⊢
    split <;> simp [ih]

theorem stripCommas_natToChars (n : ℕ) :
    stripCommas (natToChars n) = natToChars n := by
  rw [stripCommas, List.filter_eq_self]
  intro c hc
  simpa using (natToChars_no_comma_dot n c hc).1

theorem stripCommas_toLocaleChars (n : ℕ) :
    stripCommas (toLocaleChars n) = natToChars n := by
  unfold toLocaleChars
  rw [stripCommas_reverse, stripCommas_groupAux, stripCommas_reverse,
    List.reverse_reverse, stripCommas_natToChars]

theorem parseBigInt_reverse_map (L : List ℕ) (hL : ∀ d ∈ L, d < 10) :
    parseBigInt (L.map digitToChar).reverse = Nat.ofDigits 10 L := by
  induction L with
  | nil => rfl
  | cons d L ih =>
    rw [List.map_cons, List.reverse_cons]
    unfold parseBigInt at ih ⊢
    rw [List.foldl_append, List.foldl_cons, List.foldl_nil,
      ih (fun x hx => hL x (List.mem_cons_of_mem d hx)),
      charToDigit_digitToChar d (hL d (List.mem_cons_self d L)),
      Nat.ofDigits_cons]
    ring

theorem parseBigInt_natToChars (n : ℕ) : parseBigInt (natToChars n) = n := by
  unfold natToChars
  split
  next h => rw [h]; rfl
  next h =>
    rw [parseBigInt_reverse_map _ (fun d hd => Nat.digits_lt_base (by norm_num) hd),
      Nat.ofDigits_digits]

theorem parseBigInt_replicate_zero (k : ℕ) (cs : List Char) :
    parseBigInt (List.replicate k '0' ++ cs) = parseBigInt cs := by
  induction k with
  | zero => rfl
  | succ k ih =>
    rw [List.replicate_succ, List.cons_append]
    unfold parseBigInt at ih ⊢
    rw [List.foldl_cons]
    simpa using ih

theorem takeWhile_append_all (p : Char → Bool) (a b : List Char)
    (h : ∀ x ∈ a, p x = true) :
    (a ++ b).takeWhile p = a ++ b.takeWhile p := by
  induction a with
  | nil => rfl
  | cons x xs ih =>
    rw [List.cons_append, List.takeWhile_cons, h x (List.mem_cons_self x xs),
      ih (fun y hy => h y (List.mem_cons_of_mem x hy))]
    rfl

theorem takeWhile_all (p : Char → Bool) (l : List Char)
    (h : ∀ x ∈ l, p x = true) : l.takeWhile p = l := by
  induction l with
  | nil => rfl
  | cons x xs ih =>
    rw [List.takeWhile_cons, h x (List.mem_cons_self x xs),
      ih (fun y hy => h y (List.mem_cons_of_mem x hy))]
    rfl

theorem dropWhile_append_all (p : Char → Bool) (a b : List Char)
    (h : ∀ x ∈ a, p x = true) :
    (a ++ b).dropWhile p = b.dropWhile p := by
  induction a with
  | nil => rfl
  | cons x xs ih =>
    rw [List.cons_append, List.dropWhile_cons, h x (List.mem_cons_self x xs),
      ih (fun y hy => h y (List.mem_cons_of_mem x hy))]
    rfl

theorem mem_groupAux (l : List Char) (x : Char) (hx : x ∈ groupAux l) :
    x = ',' ∨ x ∈ l := by
  match l with
  | [] => exact Or.inr hx
  | [a] => exact Or.inr hx
  | [a, b] => exact Or.inr hx
  | [a, b, c] => exact Or.inr hx
  | a :: b :: c :: d :: rest =>
    simp only [groupAux, List.mem_cons] at hx
    rcases hx with rfl | rfl | rfl | rfl | h
    · exact Or.inr (by simp)
    · exact Or.inr (by simp)
    · exact Or.inr (by simp)
    · exact Or.inl rfl
    · rcases mem_groupAux (d :: rest) x h with h' | h'
      · exact Or.inl h'
      · exact Or.inr (by simp [List.mem_cons] at h' ⊢; tauto)

theorem toLocaleChars_no_dot (n : ℕ) (x : Char) (hx : x ∈ toLocaleChars n) :
    x ≠ '.' := by
  unfold toLocaleChars at hx
  rw [List.mem_reverse] at hx
  rcases mem_groupAux _ x hx with rfl | h
  · decide
  · exact (natToChars_no_comma_dot n x (List.mem_reverse.mp h)).2

theorem natToChars_length_le (fraction d : ℕ) (hd : 1 ≤ d)
    (hf : fraction < 10 ^ d) : (natToChars fraction).length ≤ d := by
  unfold natToChars
  split
  · simpa using hd
  next hn =>
    rw [List.length_reverse, List.length_map,
      Nat.digits_len 10 fraction (by norm_num) hn]
    have := (Nat.lt_pow_iff_log_lt (by norm_num) hn).mp hf
    omega

theorem padStart_length (cs : List Char) (n : ℕ) (fill : Char) :
    n ≤ (padStart cs n fill).length := by
  simp [padStart]
  omega

theorem padEnd_eq_self (cs : List Char) (n : ℕ) (fill : Char)
    (h : n ≤ cs.length) : padEnd cs n fill = cs := by
  simp [padEnd, Nat.sub_eq_zero_of_le h]

theorem parseBigInt_padStart (cs : List Char) (n : ℕ) :
    parseBigInt (padStart cs n '0') = parseBigInt cs :=
  parseBigInt_replicate_zero _ cs

theorem padStart_zero_no_dot (cs : List Char) (n : ℕ) (x : Char)
    (hx : x ∈ padStart cs n '0') (hcs : ∀ y ∈ cs, y ≠ '.') : x ≠ '.' := by
  simp only [padStart, List.mem_append, List.mem_replicate] at hx
  rcases hx with ⟨-, rfl⟩ | h
  · decide
  · exact hcs x h

/-- C10: formatting a non-negative balance and parsing it back with the
same number of decimals is the identity,
`parseAmount (formatBalance amount decimals) decimals = amount`, for
every `decimals` small enough that `10 ** decimals` is exactly
representable. -/
theorem parseAmount_formatBalance (amount decimals : ℕ)
    (hrep : decimals ≤ 15) :
    parseAmount (formatBalance amount decimals) decimals = amount := by
  by_cases h0 : decimals = 0
  · unfold formatBalance parseAmount
    rw [if_pos h0, if_pos h0, stripCommas_toLocaleChars, parseBigInt_natToChars]
  · have hd1 : 1 ≤ decimals := Nat.one_le_iff_ne_zero.mpr h0
    have hfrac : amount % 10 ^ decimals < 10 ^ decimals :=
      Nat.mod_lt _ (by positivity)
    have hAnodot : ∀ x ∈ toLocaleChars (amount / 10 ^ decimals),
        (fun c => decide (c ≠ '.')) x = true := by
      intro x hx
      simpa using toLocaleChars_no_dot _ x hx
    have hBnodot : ∀ x ∈ padStart (natToChars (amount % 10 ^ decimals)) decimals '0',
        (fun c => decide (c ≠ '.')) x = true := by
      intro x hx
      simpa using padStart_zero_no_dot _ _ x hx
        (fun y hy => (natToChars_no_comma_dot _ y hy).2)
    unfold formatBalance parseAmount
    rw [if_neg h0, if_neg h0]
    simp only [takeWhile_append_all _ _ _ hAnodot,
      dropWhile_append_all _ _ _ hAnodot, List.takeWhile_cons,
      List.dropWhile_cons]
    norm_num
    have hBnodot2 : ∀ x ∈ padStart (natToChars (amount % 10 ^ decimals)) decimals '0',
        (fun c => !decide (c = '.')) x = true := by
      intro x hx
      simpa using hBnodot x hx
    rw [takeWhile_all _ _ hBnodot2, stripCommas_toLocaleChars,
      parseBigInt_natToChars,
      padEnd_eq_self _ _ _ (padStart_length _ _ _),
      parseBigInt_padStart, parseBigInt_natToChars]
    exact Nat.div_add_mod' amount (10 ^ decimals)

/-- Witness for C10: a balance of `1234567` with two decimals — formatted
as the grouped string `12,345.67` — parses back to `1234567`. -/
theorem parseAmount_formatBalance_witness :
    (2 : ℕ) ≤ 15 ∧ parseAmount (formatBalance 1234567 2) 2 = 1234567 :=
  ⟨by norm_num, parseAmount_formatBalance 1234567 2 (by norm_num)⟩

end QubicSDK
